import Mathlib

/-!
Verification of the numeric core of a scikit-rf based pad-extraction tool
(`pads.py`): reciprocity/symmetry enforcement on a measured network, the
quadratic-root pad-parameter extraction, T-network synthesis, and the
de-embedding pipeline composing them.

Embedding conventions:
* A scikit-rf `Network` stores a frequency grid, one complex scattering
  matrix per frequency point, and a reference impedance.  Frequencies are
  embedded as rationals (IEEE doubles are rationals), matrix data as exact
  complex numbers.  The repository only ever uses a real scalar reference
  impedance (50 ohm), so `z0` is embedded as a real number; at a real
  scalar `z0` scikit-rf's scattering/impedance conversions reduce to
  `S = (Z - z0 I)(Z + z0 I)⁻¹` and `Z = z0 (I - S)⁻¹ (I + S)`.
* `numpy`'s complex square root is the principal branch, embedded as
  `z ^ (1/2 : ℂ)`.
* Division is Lean's total division (`x / 0 = 0`); where IEEE arithmetic
  would produce non-finite values the embedding produces the junk value of
  the corresponding zero division, and the surrounding theorems state the
  zero-denominator condition explicitly.
-/

namespace Pads

noncomputable section

/-- An n-port network sampled on `m` frequency points: frequency grid `f`
(Hz), per-point scattering matrix `s`, and real scalar reference impedance
`z0` (mirrors the data scikit-rf's `Network` carries in `pads.py`). -/
@[ext]
structure Network (n m : ℕ) where
  f : Fin m → ℚ
  s : Fin m → Matrix (Fin n) (Fin n) ℂ
  z0 : ℝ

/-- Reciprocity step of `enforce_reciprocal_symmetric` (pads.py line 18):
`s[i] = (s[i] + s[i].T) / 2`. -/
def recipAvg {n : ℕ} (S : Matrix (Fin n) (Fin n) ℂ) : Matrix (Fin n) (Fin n) ℂ :=
  ((2 : ℂ)⁻¹) • (S + S.transpose)

/-- Embedding of `np.mean(np.diag(s[i]))` (pads.py line 22): arithmetic mean of the
diagonal entries. -/
def diagMean {n : ℕ} (S : Matrix (Fin n) (Fin n) ℂ) : ℂ :=
  (∑ p : Fin n, S p p) / (n : ℂ)

/-- Embedding of `np.fill_diagonal(s[i], avg_diag)` (pads.py line 23): overwrite every
diagonal entry with the mean of the diagonal. -/
def fillDiag {n : ℕ} (S : Matrix (Fin n) (Fin n) ℂ) : Matrix (Fin n) (Fin n) ℂ :=
  Matrix.of fun p q => if p = q then diagMean S else S p q

/-- Per-frequency action of `enforce_reciprocal_symmetric`: reciprocity
averaging followed by diagonal averaging (pads.py lines 17-23). -/
def symmetrizeS {n : ℕ} (S : Matrix (Fin n) (Fin n) ℂ) : Matrix (Fin n) (Fin n) ℂ :=
  fillDiag (recipAvg S)

/-- The symmetrizer `enforce_reciprocal_symmetric` (pads.py lines 5-27): returns a new
network with the symmetrized scattering data and the same frequency grid
and reference impedance. -/
def enforce_reciprocal_symmetric {n m : ℕ} (net : Network n m) : Network n m :=
  { f := net.f, s := fun i => symmetrizeS (net.s i), z0 := net.z0 }

/-- Two isolated matched loads: the two-port network with zero scattering
matrix at a single frequency point (a concrete instance used to exercise
the pipeline on a degenerate, already-symmetric input). -/
def matchedNet : Network 2 1 :=
  { f := fun _ => 1, s := fun _ => 0, z0 := 50 }

/-- scikit-rf scattering-from-impedance conversion at a real scalar
reference impedance: `S = (Z - z0 I) (Z + z0 I)⁻¹` (the matrix inverse is
Lean's total adjugate-based inverse, zero when the determinant vanishes,
mirroring that the conversion is undefined at a singular point). -/
def z2s {n : ℕ} (z0 : ℝ) (Z : Matrix (Fin n) (Fin n) ℂ) : Matrix (Fin n) (Fin n) ℂ :=
  (Z - (z0 : ℂ) • 1) * (Z + (z0 : ℂ) • 1)⁻¹

/-- scikit-rf impedance-from-scattering conversion at a real scalar
reference impedance: `Z = z0 (I - S)⁻¹ (I + S)`. -/
def s2z {n : ℕ} (z0 : ℝ) (S : Matrix (Fin n) (Fin n) ℂ) : Matrix (Fin n) (Fin n) ℂ :=
  (z0 : ℂ) • ((1 - S)⁻¹ * (1 + S))

/-- The derived impedance-parameter view `net.z` of a scikit-rf network
(used by `extract_pad` and `investigate_network`). -/
def Network.z {n m : ℕ} (net : Network n m) : Fin m → Matrix (Fin n) (Fin n) ℂ :=
  fun i => s2z net.z0 (net.s i)

/-- Per-frequency impedance matrix of the tee built by `tee_network`
(pads.py lines 145-149): `Z11 = Z1+Z2`, `Z12 = Z21 = Z2`, `Z22 = Z2+Z3`. -/
def teeZ {m : ℕ} (Z1 Z2 Z3 : Fin m → ℂ) (i : Fin m) : Matrix (Fin 2) (Fin 2) ℂ :=
  !![Z1 i + Z2 i, Z2 i; Z2 i, Z2 i + Z3 i]

/-- The synthesizer `tee_network` (pads.py lines 127-152): builds the two-port whose
impedance matrix is the tee and stores the scattering representation at
reference impedance `z0` (default 50 at its call sites). -/
def tee_network {m : ℕ} (f : Fin m → ℚ) (Z1 Z2 Z3 : Fin m → ℂ) (z0 : ℝ) :
    Network 2 m :=
  { f := f, s := fun i => z2s z0 (teeZ Z1 Z2 Z3 i), z0 := z0 }

/-- Exchange of ports 1 and 2 of a two-port parameter matrix (both row and
column indices swapped). -/
def portSwap (M : Matrix (Fin 2) (Fin 2) ℂ) : Matrix (Fin 2) (Fin 2) ℂ :=
  !![M 1 1, M 1 0; M 0 1, M 0 0]

/-- The numpy complex square root: the principal branch, `z ^ (1/2)`. -/
def csqrt (z : ℂ) : ℂ := z ^ ((1 : ℂ) / 2)

/-- The `Z11` array read by `extract_pad` (pads.py line 102). -/
def padZ11 {m : ℕ} (net : Network 2 m) (i : Fin m) : ℂ := net.z i 0 0

/-- The `Z21` array read by `extract_pad` (pads.py line 103). -/
def padZ21 {m : ℕ} (net : Network 2 m) (i : Fin m) : ℂ := net.z i 1 0

/-- Closure constant `k = - Z21**2 / (-1 * (2*Z21*Z11 + Z21**2))`
(pads.py line 105). -/
def padK {m : ℕ} (net : Network 2 m) (i : Fin m) : ℂ :=
  -padZ21 net i ^ 2 / (-1 * (2 * padZ21 net i * padZ11 net i + padZ21 net i ^ 2))

/-- Quadratic coefficient `b = -2 * (Z11 + Z21 * k)` (pads.py line 108). -/
def padB {m : ℕ} (net : Network 2 m) (i : Fin m) : ℂ :=
  -2 * (padZ11 net i + padZ21 net i * padK net i)

/-- Quadratic coefficient `c = Z11*Z11 - Z21*Z21` (pads.py line 109). -/
def padC {m : ℕ} (net : Network 2 m) (i : Fin m) : ℂ :=
  padZ11 net i * padZ11 net i - padZ21 net i * padZ21 net i

/-- Discriminant `disc = b*b - 4*a*c` with `a = 1` (pads.py line 110). -/
def padDisc {m : ℕ} (net : Network 2 m) (i : Fin m) : ℂ :=
  padB net i * padB net i - 4 * padC net i

/-- Root `x1 = (-1*b + sqrt(disc)) / (2*a)` (pads.py line 111). -/
def padX1 {m : ℕ} (net : Network 2 m) (i : Fin m) : ℂ :=
  (-1 * padB net i + csqrt (padDisc net i)) / 2

/-- Root `x2 = (-1*b - sqrt(disc)) / (2*a)` (pads.py line 112). -/
def padX2 {m : ℕ} (net : Network 2 m) (i : Fin m) : ℂ :=
  (-1 * padB net i - csqrt (padDisc net i)) / 2

/-- Root selection `Z1 = np.where(np.imag(x1) >= 0, x1, x2)`
(pads.py line 115). -/
def padZ1 {m : ℕ} (net : Network 2 m) (i : Fin m) : ℂ :=
  if 0 ≤ (padX1 net i).im then padX1 net i else padX2 net i

/-- Shunt impedance `Z2 = Z11 + Z21 - Z1` (pads.py line 119). -/
def padZ2 {m : ℕ} (net : Network 2 m) (i : Fin m) : ℂ :=
  padZ11 net i + padZ21 net i - padZ1 net i

/-- Series impedance `Z3 = k * Z1` (pads.py line 122). -/
def padZ3 {m : ℕ} (net : Network 2 m) (i : Fin m) : ℂ :=
  padK net i * padZ1 net i

/-- The extractor `extract_pad` (pads.py lines 94-124): returns the frequency grid and
the three per-frequency T-pad impedances; it is a total function with no
error path. -/
def extract_pad {m : ℕ} (net : Network 2 m) :
    (Fin m → ℚ) × (Fin m → ℂ) × (Fin m → ℂ) × (Fin m → ℂ) :=
  (net.f, padZ1 net, padZ2 net, padZ3 net)

/-- The zero-denominator condition of the closure constant `k` of
`extract_pad`: `2*Z21*Z11 + Z21^2 = 0` at frequency `i` (the condition the
spec's `DegenerateModelError` is supposed to report; it holds in
particular whenever `Z21 = 0`). -/
def degenerateAt {m : ℕ} (net : Network 2 m) (i : Fin m) : Prop :=
  2 * padZ21 net i * padZ11 net i + padZ21 net i ^ 2 = 0

/-- Standard two-port cascade (scikit-rf `**`, i.e. `connect(A, 1, B, 0)`):
port 2 of `a` is connected to port 1 of `b`, accounting for the multiple
reflections between the two networks. -/
def cascadeS (a b : Matrix (Fin 2) (Fin 2) ℂ) : Matrix (Fin 2) (Fin 2) ℂ :=
  !![a 0 0 + a 0 1 * b 0 0 * a 1 0 / (1 - a 1 1 * b 0 0),
     a 0 1 * b 0 1 / (1 - a 1 1 * b 0 0);
     a 1 0 * b 1 0 / (1 - a 1 1 * b 0 0),
     b 1 1 + b 1 0 * a 1 1 * b 0 1 / (1 - a 1 1 * b 0 0)]

/-- Cascade of two networks sharing a frequency grid (scikit-rf `**`). -/
def cascade {m : ℕ} (A B : Network 2 m) : Network 2 m :=
  { f := A.f, s := fun i => cascadeS (A.s i) (B.s i), z0 := A.z0 }

/-- scikit-rf scattering-to-wave-cascading (T) parameter conversion for a
two-port. -/
def s2t (S : Matrix (Fin 2) (Fin 2) ℂ) : Matrix (Fin 2) (Fin 2) ℂ :=
  !![(S 0 1 * S 1 0 - S 0 0 * S 1 1) / S 1 0, S 0 0 / S 1 0;
     -S 1 1 / S 1 0, 1 / S 1 0]

/-- scikit-rf wave-cascading-to-scattering parameter conversion for a
two-port. -/
def t2s (T : Matrix (Fin 2) (Fin 2) ℂ) : Matrix (Fin 2) (Fin 2) ℂ :=
  !![T 0 1 / T 1 1, T.det / T 1 1;
     1 / T 1 1, -T 1 0 / T 1 1]

/-- scikit-rf `Network.inv` (used at pads.py line 158): the de-embedding
inverse, computed through wave-cascading parameters: `s2t`, per-frequency
matrix inverse, `t2s`. -/
def Network.inv {m : ℕ} (net : Network 2 m) : Network 2 m :=
  { f := net.f, s := fun i => t2s ((s2t (net.s i))⁻¹), z0 := net.z0 }

/-- Modelled from the spec: section 4.1's `invertMatrix` — the elementwise
(per-frequency) matrix inverse of a scattering matrix.  This operation is
absent from the code (whose `.inv` is the wave-cascading inverse above);
it is embedded only for comparison with the code's behaviour. -/
def invertMatrix {m : ℕ} (net : Network 2 m) : Network 2 m :=
  { f := net.f, s := fun i => (net.s i)⁻¹, z0 := net.z0 }

/-- Port swap of every scattering matrix of a network. -/
def portSwapNet {m : ℕ} (net : Network 2 m) : Network 2 m :=
  { f := net.f, s := fun i => portSwap (net.s i), z0 := net.z0 }

/-- The de-embedding step of `get_pads` (pads.py line 158):
`pads = L_line ** L2_line.inv ** L_line`. -/
def deembed_composite {m : ℕ} (netShort netLong : Network 2 m) : Network 2 m :=
  cascade (cascade netShort netLong.inv) netShort

/-- Name of the left-pad touchstone artifact (pads.py line 166). -/
def leftPadName (year length : ℤ) : String :=
  "left_pad_" ++ toString year ++ "_" ++ toString length

/-- Name of the right-pad touchstone artifact (pads.py line 167). -/
def rightPadName (year length : ℤ) : String :=
  "right_pad_" ++ toString year ++ "_" ++ toString length

/-- A file-system effect performed by the pipeline. -/
inductive FileWrite
  | touchstone (name : String)
  deriving DecidableEq

/-- The pipeline `get_pads` (pads.py lines 154-169): de-embed, symmetrize, extract,
synthesize the left tee and the mirrored right tee, write both touchstone
files, and return the two networks.  Loading the two input files is
external, so the two loaded networks are the arguments; the module globals
`year`/`length` read by the f-strings are passed explicitly.  The returned
effect list records the file writes `get_pads` itself performs. -/
def get_pads {m : ℕ} (netShort netLong : Network 2 m) (year length : ℤ) :
    (Network 2 m × Network 2 m) × List FileWrite :=
  let pads := deembed_composite netShort netLong
  let e := extract_pad (enforce_reciprocal_symmetric pads)
  let left_pad := tee_network e.1 e.2.1 e.2.2.1 e.2.2.2 50
  let right_pad := tee_network e.1 e.2.2.2 e.2.2.1 e.2.1 50
  ((left_pad, right_pad),
    [FileWrite.touchstone (leftPadName year length),
     FileWrite.touchstone (rightPadName year length)])

/-- Number of parameters `get_pads` declares (pads.py line 154:
`def get_pads(file1, file2)`). -/
def get_pads_paramCount : ℕ := 2

/-- Number of arguments `run_pad_extraction` passes to `get_pads`
(pads.py line 189: `get_pads(file1, file2, year, length)`). -/
def run_pad_extraction_argCount : ℕ := 4

/-- The entry point `run_pad_extraction` (pads.py lines 188-189): forwards its four
arguments to `get_pads`.  Python raises `TypeError` when the argument
count of a call does not match the callee's parameter count (`get_pads`
declares no defaults or varargs), so the call is embedded behind that
guard. -/
def run_pad_extraction {m : ℕ} (netShort netLong : Network 2 m)
    (year length : ℤ) :
    Except String ((Network 2 m × Network 2 m) × List FileWrite) :=
  if run_pad_extraction_argCount = get_pads_paramCount then
    Except.ok (get_pads netShort netLong year length)
  else
    Except.error ("TypeError")

/-- Concrete two-port with impedance parameters `Z11 = Z22 = -i`,
`Z12 = Z21 = 1` at its single frequency point (stored, as scikit-rf does,
through the scattering representation at 50 ohm). -/
def counterNet : Network 2 1 :=
  { f := fun _ => 1, s := fun _ => z2s 50 !![-Complex.I, 1; 1, -Complex.I], z0 := 50 }

/-- Ideal through connection (`S11 = S22 = 0`, `S12 = S21 = 1`). -/
def thruNet : Network 2 1 :=
  { f := fun _ => 1, s := fun _ => !![0, 1; 1, 0], z0 := 50 }

/-- Concrete two-port whose scattering matrix is not invariant under the
port swap (`S11 ≠ S22`), used to separate scikit-rf's `.inv` from the
plain per-frequency matrix inverse. -/
def asymNet : Network 2 1 :=
  { f := fun _ => 1, s := fun _ => !![1/2, 1; 1, 1/3], z0 := 50 }

/-- Concrete tee parameters `(Z1, Z2, Z3) = (i, 1, 0)` on a one-point
grid, used to test the round-trip property. -/
def cZ1 : Fin 1 → ℂ := fun _ => Complex.I

/-- Concrete tee shunt parameter `Z2 = 1`. -/
def cZ2 : Fin 1 → ℂ := fun _ => 1

/-- Concrete tee parameter `Z3 = 0`. -/
def cZ3 : Fin 1 → ℂ := fun _ => 0

/-- Concrete one-point frequency grid. -/
def cF : Fin 1 → ℚ := fun _ => 1

theorem recipAvg_transpose {n : ℕ} (S : Matrix (Fin n) (Fin n) ℂ) :
    (recipAvg S).transpose = recipAvg S := by
  unfold recipAvg
  rw [Matrix.transpose_smul, Matrix.transpose_add, Matrix.transpose_transpose,
    add_comm]

theorem fillDiag_transpose {n : ℕ} (S : Matrix (Fin n) (Fin n) ℂ)
    (hS : S.transpose = S) : (fillDiag S).transpose = fillDiag S := by
  funext p q
  by_cases h : p = q
  · subst h; rfl
  · have h' : ¬ q = p := fun hqp => h hqp.symm
    have := congrFun (congrFun hS q) p
    simp [fillDiag, Matrix.transpose_apply, h, h'] at this ⊢
    exact this.symm

theorem fillDiag_diag {n : ℕ} (S : Matrix (Fin n) (Fin n) ℂ) (p : Fin n) :
    fillDiag S p p = diagMean S := by
  simp [fillDiag]

theorem symmetrizeS_transpose {n : ℕ} (S : Matrix (Fin n) (Fin n) ℂ) :
    (symmetrizeS S).transpose = symmetrizeS S :=
  fillDiag_transpose _ (recipAvg_transpose S)

theorem recipAvg_of_symm {n : ℕ} (S : Matrix (Fin n) (Fin n) ℂ)
    (hS : S.transpose = S) : recipAvg S = S := by
  unfold recipAvg
  rw [hS, ← two_smul ℂ S, smul_smul]
  norm_num

theorem fillDiag_of_const_diag {n : ℕ} (S : Matrix (Fin n) (Fin n) ℂ)
    (hd : ∀ p q, S p p = S q q) : fillDiag S = S := by
  funext p q
  by_cases h : p = q
  · subst h
    rcases Nat.eq_zero_or_pos n with hn | hn
    · subst hn; exact absurd p.isLt (by omega)
    · have hcast : (n : ℂ) ≠ 0 := by
        exact_mod_cast Nat.pos_iff_ne_zero.mp hn
      have hsum : (∑ q : Fin n, S q q) = (n : ℂ) * S p p := by
        rw [Finset.sum_congr rfl (fun q _ => (hd q p))]
        simp [Finset.card_univ, mul_comm]
      have hdm : diagMean S = S p p := by
        unfold diagMean
        rw [hsum, mul_div_cancel_left₀ _ hcast]
      simp [fillDiag, hdm]
  · simp [fillDiag, h]

theorem symmetrizeS_idem {n : ℕ} (S : Matrix (Fin n) (Fin n) ℂ) :
    symmetrizeS (symmetrizeS S) = symmetrizeS S := by
  have h1 : recipAvg (symmetrizeS S) = symmetrizeS S :=
    recipAvg_of_symm _ (symmetrizeS_transpose S)
  have h2 : ∀ p q, symmetrizeS S p p = symmetrizeS S q q := by
    intro p q
    unfold symmetrizeS
    rw [fillDiag_diag, fillDiag_diag]
  show fillDiag (recipAvg (symmetrizeS S)) = symmetrizeS S
  rw [h1]
  exact fillDiag_of_const_diag _ h2

theorem symmetrizeS_fixed {n : ℕ} (S : Matrix (Fin n) (Fin n) ℂ)
    (hS : S.transpose = S) (hd : ∀ p q, S p p = S q q) :
    symmetrizeS S = S := by
  unfold symmetrizeS
  rw [recipAvg_of_symm S hS]
  exact fillDiag_of_const_diag S hd

/-- Claim C4: for every input network `N`, `enforce_reciprocal_symmetric N`
has, at every frequency point, a scattering matrix exactly equal to its own
transpose, with all diagonal entries equal to one shared value, and has the
same frequency grid and reference impedance as `N`. -/
theorem enforce_reciprocal_symmetric_invariants {n m : ℕ} (net : Network n m)
    (i : Fin m) (p q : Fin n) :
    ((enforce_reciprocal_symmetric net).s i).transpose
        = (enforce_reciprocal_symmetric net).s i ∧
    (enforce_reciprocal_symmetric net).s i p p
        = (enforce_reciprocal_symmetric net).s i q q ∧
    (enforce_reciprocal_symmetric net).f = net.f ∧
    (enforce_reciprocal_symmetric net).z0 = net.z0 := by
  refine ⟨symmetrizeS_transpose _, ?_, rfl, rfl⟩
  show symmetrizeS (net.s i) p p = symmetrizeS (net.s i) q q
  unfold symmetrizeS
  rw [fillDiag_diag, fillDiag_diag]

/-- Claim C5: the symmetrizer is idempotent, and a network that already
satisfies `S = Sᵀ` with a single shared diagonal value at every frequency
is returned unchanged. -/
theorem enforce_reciprocal_symmetric_idem {n m : ℕ} (net : Network n m) :
    enforce_reciprocal_symmetric (enforce_reciprocal_symmetric net)
        = enforce_reciprocal_symmetric net ∧
    ((∀ i : Fin m, (net.s i).transpose = net.s i ∧
        ∀ p q : Fin n, net.s i p p = net.s i q q) →
      enforce_reciprocal_symmetric net = net) := by
  constructor
  · ext i : 2
    · rfl
    · exact symmetrizeS_idem (net.s i)
    · rfl
  · intro h
    ext i : 2
    · rfl
    · exact symmetrizeS_fixed (net.s i) (h i).1 (h i).2
    · rfl

/-- Witness for claim C5 at the concrete network `matchedNet`, whose
scattering matrix is already symmetric with constant diagonal. -/
theorem enforce_reciprocal_symmetric_idem_witness :
    enforce_reciprocal_symmetric (enforce_reciprocal_symmetric matchedNet)
        = enforce_reciprocal_symmetric matchedNet ∧
    enforce_reciprocal_symmetric matchedNet = matchedNet := by
  refine ⟨(enforce_reciprocal_symmetric_idem matchedNet).1,
    (enforce_reciprocal_symmetric_idem matchedNet).2 ?_⟩
  intro i
  constructor
  · simp [matchedNet]
  · intro p q; simp [matchedNet]

theorem s2z_z2s {n : ℕ} (z0 : ℝ) (hz0 : z0 ≠ 0) (Z : Matrix (Fin n) (Fin n) ℂ)
    (hdet : (Z + (z0 : ℂ) • 1).det ≠ 0) : s2z z0 (z2s z0 Z) = Z := by
  set B : Matrix (Fin n) (Fin n) ℂ := Z + (z0 : ℂ) • 1 with hBdef
  have hB : IsUnit B.det := isUnit_iff_ne_zero.mpr hdet
  have hBB : B * B⁻¹ = 1 := Matrix.mul_nonsing_inv _ hB
  have hBB' : B⁻¹ * B = 1 := Matrix.nonsing_inv_mul _ hB
  have hc : (2 * (z0 : ℂ)) ≠ 0 := by
    simp [Complex.ofReal_ne_zero, hz0]
  have hz0' : ((z0 : ℂ)) ≠ 0 := Complex.ofReal_ne_zero.mpr hz0
  have h1 : (1 : Matrix (Fin n) (Fin n) ℂ) - z2s z0 Z = (2 * (z0 : ℂ)) • B⁻¹ := by
    unfold z2s
    rw [← hBdef]
    nth_rewrite 1 [← hBB]
    rw [← Matrix.sub_mul]
    have : B - (Z - (z0 : ℂ) • 1) = (2 * (z0 : ℂ)) • (1 : Matrix (Fin n) (Fin n) ℂ) := by
      rw [hBdef, two_mul, add_smul]
      abel
    rw [this, Matrix.smul_mul, one_mul]
  have h1inv : ((1 : Matrix (Fin n) (Fin n) ℂ) - z2s z0 Z)⁻¹ = (2 * (z0 : ℂ))⁻¹ • B := by
    rw [h1]
    apply Matrix.inv_eq_right_inv
    rw [Matrix.smul_mul, Matrix.mul_smul, smul_smul, mul_inv_cancel₀ hc, one_smul, hBB']
  have h3 : (1 : Matrix (Fin n) (Fin n) ℂ) + z2s z0 Z = (2 : ℂ) • (Z * B⁻¹) := by
    unfold z2s
    rw [← hBdef]
    nth_rewrite 1 [← hBB]
    rw [← Matrix.add_mul]
    have : B + (Z - (z0 : ℂ) • 1) = (2 : ℂ) • Z := by
      rw [hBdef, two_smul]
      abel
    rw [this, Matrix.smul_mul]
  have hcomm : B * Z = Z * B := by
    rw [hBdef, add_mul, mul_add, Matrix.smul_mul, Matrix.mul_smul, one_mul, mul_one]
  have hBZ : B * (Z * B⁻¹) = Z := by
    rw [← Matrix.mul_assoc, hcomm, Matrix.mul_assoc, hBB, mul_one]
  unfold s2z
  rw [h1inv, h3, Matrix.smul_mul, Matrix.mul_smul, hBZ, smul_smul, smul_smul]
  have hone : (z0 : ℂ) * (2 * (z0 : ℂ))⁻¹ * 2 = 1 := by
    field_simp
    ring
  rw [hone, one_smul]

/-- Claim C10: the impedance matrix built by `tee_network` is symmetric
(`Z12 = Z21 = Z2`) at every frequency, for all inputs, so every
synthesized tee network is reciprocal (its scattering matrix equals its
own transpose). -/
theorem tee_network_reciprocal {m : ℕ} (f : Fin m → ℚ) (Z1 Z2 Z3 : Fin m → ℂ)
    (z0 : ℝ) (i : Fin m) :
    teeZ Z1 Z2 Z3 i 0 1 = Z2 i ∧ teeZ Z1 Z2 Z3 i 1 0 = Z2 i ∧
    (teeZ Z1 Z2 Z3 i).transpose = teeZ Z1 Z2 Z3 i ∧
    ((tee_network f Z1 Z2 Z3 z0).s i).transpose = (tee_network f Z1 Z2 Z3 z0).s i := by
  refine ⟨by simp [teeZ], by simp [teeZ], ?_, ?_⟩
  · funext p q
    fin_cases p <;> fin_cases q <;> simp [teeZ, Matrix.transpose_apply]
  · show (z2s z0 (teeZ Z1 Z2 Z3 i)).transpose = z2s z0 (teeZ Z1 Z2 Z3 i)
    unfold z2s teeZ
    rw [Matrix.inv_def]
    funext p q
    fin_cases p <;> fin_cases q <;>
      simp [Matrix.transpose_apply, Matrix.mul_apply, Matrix.smul_apply,
        Fin.sum_univ_two, Matrix.adjugate_fin_two, Matrix.det_fin_two,
        Matrix.sub_apply, Matrix.add_apply, Matrix.one_apply] <;>
      ring

theorem z2s_portSwap (z0 : ℝ) (Z : Matrix (Fin 2) (Fin 2) ℂ) :
    z2s z0 (portSwap Z) = portSwap (z2s z0 Z) := by
  have hd : (portSwap Z + (z0 : ℂ) • 1).det = (Z + (z0 : ℂ) • 1).det := by
    simp [portSwap, Matrix.det_fin_two, Matrix.add_apply, Matrix.smul_apply,
      Matrix.one_apply]
    ring
  unfold z2s
  rw [Matrix.inv_def, Matrix.inv_def, hd]
  funext p q
  fin_cases p <;> fin_cases q <;>
    simp [portSwap, Matrix.mul_apply, Matrix.smul_apply, Fin.sum_univ_two,
      Matrix.adjugate_fin_two, Matrix.sub_apply, Matrix.add_apply,
      Matrix.one_apply] <;>
    ring

/-- Claim C7 (mirror property): the scattering matrix of
`tee_network f Z3 Z2 Z1 z0` equals that of `tee_network f Z1 Z2 Z3 z0`
with ports 1 and 2 swapped, at every frequency, for all inputs. -/
theorem tee_network_mirror {m : ℕ} (f : Fin m → ℚ) (Z1 Z2 Z3 : Fin m → ℂ)
    (z0 : ℝ) (i : Fin m) :
    (tee_network f Z3 Z2 Z1 z0).s i = portSwap ((tee_network f Z1 Z2 Z3 z0).s i) := by
  show z2s z0 (teeZ Z3 Z2 Z1 i) = portSwap (z2s z0 (teeZ Z1 Z2 Z3 i))
  rw [← z2s_portSwap]
  have h : teeZ Z3 Z2 Z1 i = portSwap (teeZ Z1 Z2 Z3 i) := by
    funext p q
    fin_cases p <;> fin_cases q <;> simp [teeZ, portSwap] <;> ring
  rw [h]

theorem csqrt_zero : csqrt 0 = 0 := by
  unfold csqrt
  exact Complex.zero_cpow (by norm_num)

theorem csqrt_sq (z : ℂ) : csqrt z ^ 2 = z := by
  unfold csqrt
  rcases eq_or_ne z 0 with h | h
  · subst h
    rw [Complex.zero_cpow (by norm_num : ((1 : ℂ) / 2) ≠ 0)]
    norm_num
  · rw [sq, ← Complex.cpow_add _ _ h]
    norm_num

theorem csqrt_re_nonneg (z : ℂ) : 0 ≤ (csqrt z).re := by
  unfold csqrt
  rcases eq_or_ne z 0 with h | h
  · subst h
    rw [Complex.zero_cpow (by norm_num : ((1 : ℂ) / 2) ≠ 0)]
    simp
  · rw [Complex.cpow_def_of_ne_zero h, Complex.exp_re]
    apply mul_nonneg (Real.exp_pos _).le
    apply Real.cos_nonneg_of_mem_Icc
    have him : (Complex.log z * ((1 : ℂ) / 2)).im = z.arg / 2 := by
      simp [Complex.mul_im, Complex.log_im]
      ring
    rw [him]
    constructor
    · have := Complex.neg_pi_lt_arg z
      linarith
    · have := Complex.arg_le_pi z
      linarith

theorem padX1_root {m : ℕ} (net : Network 2 m) (i : Fin m) :
    padX1 net i ^ 2 + padB net i * padX1 net i + padC net i = 0 := by
  have hs : csqrt (padDisc net i) ^ 2 = padB net i * padB net i - 4 * padC net i :=
    csqrt_sq (padDisc net i)
  unfold padX1
  linear_combination ((1 : ℂ) / 4) * hs

theorem padX2_root {m : ℕ} (net : Network 2 m) (i : Fin m) :
    padX2 net i ^ 2 + padB net i * padX2 net i + padC net i = 0 := by
  have hs : csqrt (padDisc net i) ^ 2 = padB net i * padB net i - 4 * padC net i :=
    csqrt_sq (padDisc net i)
  unfold padX2
  linear_combination ((1 : ℂ) / 4) * hs

theorem padZ1_root {m : ℕ} (net : Network 2 m) (i : Fin m) :
    padZ1 net i ^ 2 + padB net i * padZ1 net i + padC net i = 0 := by
  unfold padZ1
  split_ifs
  · exact padX1_root net i
  · exact padX2_root net i

theorem matchedNet_z (i : Fin 1) : matchedNet.z i = (50 : ℂ) • 1 := by
  show s2z matchedNet.z0 (matchedNet.s i) = (50 : ℂ) • 1
  simp [s2z, matchedNet]

theorem matchedNet_Z11 : padZ11 matchedNet 0 = 50 := by
  unfold padZ11
  rw [matchedNet_z]
  simp [Matrix.smul_apply, Matrix.one_apply]

theorem matchedNet_Z21 : padZ21 matchedNet 0 = 0 := by
  unfold padZ21
  rw [matchedNet_z]
  simp [Matrix.smul_apply, Matrix.one_apply]

theorem matchedNet_K : padK matchedNet 0 = 0 := by
  unfold padK
  rw [matchedNet_Z21]
  simp

theorem matchedNet_B : padB matchedNet 0 = -100 := by
  unfold padB
  rw [matchedNet_Z11, matchedNet_Z21, matchedNet_K]
  ring

theorem matchedNet_C : padC matchedNet 0 = 2500 := by
  unfold padC
  rw [matchedNet_Z11, matchedNet_Z21]
  ring

theorem matchedNet_disc : padDisc matchedNet 0 = 0 := by
  unfold padDisc
  rw [matchedNet_B, matchedNet_C]
  ring

theorem matchedNet_X1 : padX1 matchedNet 0 = 50 := by
  unfold padX1
  rw [matchedNet_B, matchedNet_disc, csqrt_zero]
  norm_num

theorem matchedNet_Z1 : padZ1 matchedNet 0 = 50 := by
  unfold padZ1
  rw [matchedNet_X1]
  simp

theorem matchedNet_degenerate : degenerateAt matchedNet 0 := by
  unfold degenerateAt
  rw [matchedNet_Z21]
  ring

/-- Claim C2 (amended): `extract_pad` performs no degeneracy check and has
no error path: at a frequency where the denominator of `k` vanishes it
divides by zero — the computed `k` and `Z3 = k·Z1` are the artifacts of
that division (non-finite in IEEE arithmetic, the junk value `0` of the
embedding's total division) — and a full result is still returned; no
`DegenerateModelError` exists in the code. -/
theorem extract_pad_no_degenerate_check {m : ℕ} (net : Network 2 m) (i : Fin m)
    (h : degenerateAt net i) :
    padK net i = 0 ∧ padZ3 net i = 0 ∧
    extract_pad net = (net.f, padZ1 net, padZ2 net, padZ3 net) := by
  have hk : padK net i = 0 := by
    unfold padK
    unfold degenerateAt at h
    rw [h]
    simp
  exact ⟨hk, by unfold padZ3; rw [hk, zero_mul], rfl⟩

/-- Witness for claim C2's amended statement at the concrete degenerate
network `matchedNet` (whose `Z21` is zero). -/
theorem extract_pad_no_degenerate_check_witness :
    degenerateAt matchedNet 0 ∧ padK matchedNet 0 = 0 ∧ padZ3 matchedNet 0 = 0 :=
  ⟨matchedNet_degenerate,
    (extract_pad_no_degenerate_check matchedNet 0 matchedNet_degenerate).1,
    (extract_pad_no_degenerate_check matchedNet 0 matchedNet_degenerate).2.1⟩

/-- Counterexample for claim C2 as stated: `matchedNet` has `Z21 = 0` (so
the denominator of `k` is zero at its only frequency), yet `extract_pad`
does not fail — it returns the concrete triple `(50, 0, 0)` produced by
the zero division. -/
theorem extract_pad_degenerate_counterexample :
    degenerateAt matchedNet 0 ∧
    (extract_pad matchedNet).2.1 0 = 50 ∧
    (extract_pad matchedNet).2.2.1 0 = 0 ∧
    (extract_pad matchedNet).2.2.2 0 = 0 := by
  refine ⟨matchedNet_degenerate, matchedNet_Z1, ?_, ?_⟩
  · show padZ2 matchedNet 0 = 0
    unfold padZ2
    rw [matchedNet_Z11, matchedNet_Z21, matchedNet_Z1]
    ring
  · show padZ3 matchedNet 0 = 0
    unfold padZ3
    rw [matchedNet_K, zero_mul]

/-- Claim C3 (amended): the root selection takes `x1` when `Im x1 ≥ 0` and
`x2` otherwise, so the returned `Z1` has non-negative imaginary part
whenever at least one of the two quadratic roots does; when both roots
have negative imaginary part the selected `Z1` is `x2` and the invariant
`Im Z1 ≥ 0` fails. -/
theorem padZ1_im_nonneg_of_branch {m : ℕ} (net : Network 2 m) (i : Fin m)
    (h : 0 ≤ (padX1 net i).im ∨ 0 ≤ (padX2 net i).im) :
    0 ≤ (padZ1 net i).im := by
  unfold padZ1
  split_ifs with h1
  · exact h1
  · rcases h with h | h
    · exact absurd h h1
    · exact h

/-- Witness for claim C3's amended statement at the concrete network
`matchedNet`, where `x1 = 50` has imaginary part `0 ≥ 0`. -/
theorem padZ1_im_nonneg_of_branch_witness :
    (0 ≤ (padX1 matchedNet 0).im ∨ 0 ≤ (padX2 matchedNet 0).im) ∧
    0 ≤ (padZ1 matchedNet 0).im := by
  have h : 0 ≤ (padX1 matchedNet 0).im ∨ 0 ≤ (padX2 matchedNet 0).im := by
    left
    rw [matchedNet_X1]
    simp
  exact ⟨h, padZ1_im_nonneg_of_branch matchedNet 0 h⟩

theorem counterNet_z : counterNet.z 0 = !![-Complex.I, 1; 1, -Complex.I] := by
  show s2z counterNet.z0 (counterNet.s 0) = !![-Complex.I, 1; 1, -Complex.I]
  have hs : counterNet.s 0 = z2s 50 !![-Complex.I, 1; 1, -Complex.I] := rfl
  rw [hs]
  apply s2z_z2s 50 (by norm_num)
  have hsum : !![-Complex.I, 1; 1, -Complex.I] + (((50 : ℝ)) : ℂ) • 1
      = !![50 - Complex.I, 1; 1, 50 - Complex.I] := by
    funext p q
    fin_cases p <;> fin_cases q <;>
      simp [Matrix.add_apply, Matrix.smul_apply, Matrix.one_apply,
        Complex.ofReal_ofNat] <;> ring
  rw [hsum, Matrix.det_fin_two_of]
  intro h0
  have hre := congrArg Complex.re h0
  simp [Complex.mul_re, Complex.sub_re, Complex.sub_im, Complex.I_re,
    Complex.I_im] at hre
  norm_num at hre

theorem counterNet_Z11 : padZ11 counterNet 0 = -Complex.I := by
  unfold padZ11
  rw [counterNet_z]
  simp

theorem counterNet_Z21 : padZ21 counterNet 0 = 1 := by
  unfold padZ21
  rw [counterNet_z]
  simp

theorem counterNet_K : padK counterNet 0 = (1 + 2 * Complex.I) / 5 := by
  unfold padK
  rw [counterNet_Z11, counterNet_Z21]
  have hden : (-1 * (2 * 1 * -Complex.I + 1 ^ 2) : ℂ) ≠ 0 := by
    intro h0
    have hre := congrArg Complex.re h0
    simp [Complex.mul_re, Complex.add_re, Complex.add_im, Complex.neg_re,
      Complex.neg_im, Complex.I_re, Complex.I_im] at hre
  rw [div_eq_div_iff hden (by norm_num : (5 : ℂ) ≠ 0)]
  linear_combination (-4 : ℂ) * Complex.I_sq

theorem counterNet_B :
    padB counterNet 0 = ((-2/5 : ℝ) : ℂ) + ((6/5 : ℝ) : ℂ) * Complex.I := by
  unfold padB
  rw [counterNet_Z11, counterNet_Z21, counterNet_K]
  push_cast
  ring

theorem counterNet_C : padC counterNet 0 = -2 := by
  unfold padC
  rw [counterNet_Z11, counterNet_Z21]
  linear_combination Complex.I_sq

theorem counterNet_disc :
    padDisc counterNet 0 = ((168 : ℂ) - 24 * Complex.I) / 25 := by
  unfold padDisc
  rw [counterNet_B, counterNet_C]
  push_cast
  linear_combination ((36 : ℂ) / 25) * Complex.I_sq

/-- Counterexample for claim C3 as stated: at the concrete network
`counterNet` (impedance parameters `Z11 = -i`, `Z21 = 1`) both quadratic
roots have strictly negative imaginary part, so the `Z1` returned by
`extract_pad` has `Im Z1 < 0`, violating the claimed invariant
`Im Z1 ≥ 0`. -/
theorem padZ1_im_negative_counterexample : ((extract_pad counterNet).2.1 0).im < 0 := by
  show (padZ1 counterNet 0).im < 0
  set s : ℂ := csqrt (((168 : ℂ) - 24 * Complex.I) / 25) with hsdef
  have hs2 : s ^ 2 = ((168 : ℂ) - 24 * Complex.I) / 25 := by
    rw [hsdef]
    exact csqrt_sq _
  have hs2' : (25 : ℂ) * s ^ 2 = 168 - 24 * Complex.I := by
    rw [hs2]
    ring
  have hre0 : 0 ≤ s.re := by
    rw [hsdef]
    exact csqrt_re_nonneg _
  have hre_eq : s.re * s.re - s.im * s.im = 168 / 25 := by
    have h := congrArg Complex.re hs2'
    simp [pow_two, Complex.mul_re, Complex.mul_im, Complex.sub_re,
      Complex.I_re, Complex.I_im] at h
    ring_nf at h ⊢
    linarith
  have him_eq : s.re * s.im = -12 / 25 := by
    have h := congrArg Complex.im hs2'
    simp [pow_two, Complex.mul_re, Complex.mul_im, Complex.sub_im,
      Complex.I_re, Complex.I_im] at h
    ring_nf at h ⊢
    linarith
  have hre_pos : 2 < s.re := by
    nlinarith [hre_eq, hre0, mul_self_nonneg s.im]
  have him_neg : s.im < 0 := by
    nlinarith [him_eq, hre_pos]
  have him_gt : -6 / 5 < s.im := by
    have haux : 0 < (s.re - 2) * (-s.im) := by
      apply mul_pos <;> linarith
    nlinarith [him_eq, haux]
  have hX1 : padX1 counterNet 0
      = (-1 * (((-2/5 : ℝ) : ℂ) + ((6/5 : ℝ) : ℂ) * Complex.I) + s) / 2 := by
    unfold padX1
    rw [counterNet_B, counterNet_disc, ← hsdef]
  have hX2 : padX2 counterNet 0
      = (-1 * (((-2/5 : ℝ) : ℂ) + ((6/5 : ℝ) : ℂ) * Complex.I) - s) / 2 := by
    unfold padX2
    rw [counterNet_B, counterNet_disc, ← hsdef]
  have him_x1 : (padX1 counterNet 0).im = (-6 / 5 + s.im) / 2 := by
    rw [hX1]
    simp [Complex.add_im, Complex.mul_im, Complex.mul_re, Complex.ofReal_re,
      Complex.ofReal_im, Complex.I_re, Complex.I_im, Complex.neg_im,
      Complex.neg_re]
    ring
  have him_x2 : (padX2 counterNet 0).im = (-6 / 5 - s.im) / 2 := by
    rw [hX2]
    simp [Complex.sub_im, Complex.mul_im, Complex.mul_re, Complex.ofReal_re,
      Complex.ofReal_im, Complex.I_re, Complex.I_im, Complex.neg_im,
      Complex.neg_re]
    ring
  have hx1neg : (padX1 counterNet 0).im < 0 := by
    rw [him_x1]
    linarith
  have hx2neg : (padX2 counterNet 0).im < 0 := by
    rw [him_x2]
    linarith
  unfold padZ1
  rw [if_neg (not_le.mpr hx1neg)]
  exact hx2neg

theorem tee_z {m : ℕ} (f : Fin m → ℚ) (Z1 Z2 Z3 : Fin m → ℂ) (z0 : ℝ)
    (i : Fin m) (hz0 : z0 ≠ 0)
    (hdet : (teeZ Z1 Z2 Z3 i + (z0 : ℂ) • 1).det ≠ 0) :
    (tee_network f Z1 Z2 Z3 z0).z i = teeZ Z1 Z2 Z3 i := by
  show s2z z0 (z2s z0 (teeZ Z1 Z2 Z3 i)) = teeZ Z1 Z2 Z3 i
  exact s2z_z2s z0 hz0 _ hdet

/-- Claim C1 (amended): the round-trip fails for a single tee.  Whenever
`Z1·Z2 ≠ 0` and `2·Z1 + 3·Z2 ≠ 0` (and the impedance/scattering
conversion is nonsingular), `extract_pad` applied to the impedance
parameters of `tee_network f Z1 Z2 Z3 z0` returns a first component
different from the input `Z1` — the input `Z1` is not a root of the
extraction quadratic, whose formulas are not inverse to a single tee.
What does hold is: the returned triple satisfies
`Z1' + Z2' = Z11 + Z21 = Z1 + 2·Z2` and `Z3' = k·Z1'`, and the frequency
grid is returned unchanged. -/
theorem extract_pad_tee_not_roundtrip {m : ℕ} (f : Fin m → ℚ)
    (Z1 Z2 Z3 : Fin m → ℂ) (z0 : ℝ) (i : Fin m) (hz0 : z0 ≠ 0)
    (hdet : (teeZ Z1 Z2 Z3 i + (z0 : ℂ) • 1).det ≠ 0)
    (h1 : Z1 i ≠ 0) (h2 : Z2 i ≠ 0) (h23 : 2 * Z1 i + 3 * Z2 i ≠ 0) :
    (extract_pad (tee_network f Z1 Z2 Z3 z0)).2.1 i ≠ Z1 i ∧
    (extract_pad (tee_network f Z1 Z2 Z3 z0)).2.1 i
        + (extract_pad (tee_network f Z1 Z2 Z3 z0)).2.2.1 i = Z1 i + 2 * Z2 i ∧
    (extract_pad (tee_network f Z1 Z2 Z3 z0)).2.2.2 i
        = padK (tee_network f Z1 Z2 Z3 z0) i
            * (extract_pad (tee_network f Z1 Z2 Z3 z0)).2.1 i ∧
    (extract_pad (tee_network f Z1 Z2 Z3 z0)).1 = f := by
  have hz : (tee_network f Z1 Z2 Z3 z0).z i = teeZ Z1 Z2 Z3 i :=
    tee_z f Z1 Z2 Z3 z0 i hz0 hdet
  have hZ11 : padZ11 (tee_network f Z1 Z2 Z3 z0) i = Z1 i + Z2 i := by
    unfold padZ11
    rw [hz]
    simp [teeZ]
  have hZ21 : padZ21 (tee_network f Z1 Z2 Z3 z0) i = Z2 i := by
    unfold padZ21
    rw [hz]
    simp [teeZ]
  have hk : padK (tee_network f Z1 Z2 Z3 z0) i = Z2 i / (2 * Z1 i + 3 * Z2 i) := by
    unfold padK
    rw [hZ11, hZ21]
    have hA : (-1 * (2 * Z2 i * (Z1 i + Z2 i) + Z2 i ^ 2)) ≠ 0 := by
      have he : (-1 * (2 * Z2 i * (Z1 i + Z2 i) + Z2 i ^ 2))
          = -(Z2 i * (2 * Z1 i + 3 * Z2 i)) := by ring
      rw [he]
      exact neg_ne_zero.mpr (mul_ne_zero h2 h23)
    rw [div_eq_div_iff hA h23]
    ring
  have hBval : padB (tee_network f Z1 Z2 Z3 z0) i
      = -2 * (Z1 i + Z2 i + Z2 i * (Z2 i / (2 * Z1 i + 3 * Z2 i))) := by
    unfold padB
    rw [hZ11, hZ21, hk]
  have hCval : padC (tee_network f Z1 Z2 Z3 z0) i = Z1 i ^ 2 + 2 * Z1 i * Z2 i := by
    unfold padC
    rw [hZ11, hZ21]
    ring
  have hkey : (Z1 i ^ 2 + padB (tee_network f Z1 Z2 Z3 z0) i * Z1 i
        + padC (tee_network f Z1 Z2 Z3 z0) i) * (2 * Z1 i + 3 * Z2 i)
      = -2 * Z1 i * Z2 i ^ 2 := by
    rw [hBval, hCval]
    field_simp
    ring
  have hPne : Z1 i ^ 2 + padB (tee_network f Z1 Z2 Z3 z0) i * Z1 i
      + padC (tee_network f Z1 Z2 Z3 z0) i ≠ 0 := by
    intro h0
    rw [h0, zero_mul] at hkey
    have hne : (-2 : ℂ) * Z1 i * Z2 i ^ 2 ≠ 0 :=
      mul_ne_zero (mul_ne_zero (by norm_num) h1) (pow_ne_zero 2 h2)
    exact hne hkey.symm
  refine ⟨?_, ?_, rfl, rfl⟩
  · intro heq
    have hr := padZ1_root (tee_network f Z1 Z2 Z3 z0) i
    rw [show (extract_pad (tee_network f Z1 Z2 Z3 z0)).2.1 i
        = padZ1 (tee_network f Z1 Z2 Z3 z0) i from rfl] at heq
    rw [heq] at hr
    exact hPne hr
  · show padZ1 (tee_network f Z1 Z2 Z3 z0) i + padZ2 (tee_network f Z1 Z2 Z3 z0) i
        = Z1 i + 2 * Z2 i
    unfold padZ2
    rw [hZ11, hZ21]
    ring

theorem c_tee_det : (teeZ cZ1 cZ2 cZ3 0 + ((50 : ℝ) : ℂ) • 1).det ≠ 0 := by
  have hsum : teeZ cZ1 cZ2 cZ3 0 + ((50 : ℝ) : ℂ) • 1
      = !![51 + Complex.I, 1; 1, 51] := by
    funext p q
    fin_cases p <;> fin_cases q <;>
      simp [teeZ, cZ1, cZ2, cZ3, Matrix.add_apply, Matrix.smul_apply,
        Matrix.one_apply, Complex.ofReal_ofNat] <;> ring
  rw [hsum, Matrix.det_fin_two_of]
  intro h0
  have hre := congrArg Complex.re h0
  simp [Complex.mul_re, Complex.add_re, Complex.add_im, Complex.I_re,
    Complex.I_im] at hre
  norm_num at hre

/-- Witness for claim C1's amended statement at the concrete tee
`(Z1, Z2, Z3) = (i, 1, 0)`, `z0 = 50`: all side conditions hold and the
extracted first component differs from the input `Z1 = i`. -/
theorem extract_pad_tee_not_roundtrip_witness :
    (50 : ℝ) ≠ 0 ∧ cZ1 0 ≠ 0 ∧ cZ2 0 ≠ 0 ∧ 2 * cZ1 0 + 3 * cZ2 0 ≠ 0 ∧
    (extract_pad (tee_network cF cZ1 cZ2 cZ3 50)).2.1 0 ≠ cZ1 0 ∧
    (extract_pad (tee_network cF cZ1 cZ2 cZ3 50)).2.1 0
        + (extract_pad (tee_network cF cZ1 cZ2 cZ3 50)).2.2.1 0
      = cZ1 0 + 2 * cZ2 0 := by
  have h1 : cZ1 0 ≠ 0 := by
    show Complex.I ≠ 0
    exact Complex.I_ne_zero
  have h2 : cZ2 0 ≠ 0 := by
    show (1 : ℂ) ≠ 0
    norm_num
  have h23 : 2 * cZ1 0 + 3 * cZ2 0 ≠ 0 := by
    show 2 * Complex.I + 3 * 1 ≠ 0
    intro h0
    have hre := congrArg Complex.re h0
    simp [Complex.add_re, Complex.mul_re, Complex.I_re, Complex.I_im] at hre
  have h := extract_pad_tee_not_roundtrip cF cZ1 cZ2 cZ3 50 0 (by norm_num)
    c_tee_det h1 h2 h23
  exact ⟨by norm_num, h1, h2, h23, h.1, h.2.1⟩

theorem cTee_Z11 : padZ11 (tee_network cF cZ1 cZ2 cZ3 50) 0 = Complex.I + 1 := by
  unfold padZ11
  rw [tee_z cF cZ1 cZ2 cZ3 50 0 (by norm_num) c_tee_det]
  simp [teeZ, cZ1, cZ2]

theorem cTee_Z21 : padZ21 (tee_network cF cZ1 cZ2 cZ3 50) 0 = 1 := by
  unfold padZ21
  rw [tee_z cF cZ1 cZ2 cZ3 50 0 (by norm_num) c_tee_det]
  simp [teeZ, cZ2]

theorem cTee_K : padK (tee_network cF cZ1 cZ2 cZ3 50) 0
    = ((3 : ℂ) - 2 * Complex.I) / 13 := by
  unfold padK
  rw [cTee_Z11, cTee_Z21]
  have hden : (-1 * (2 * 1 * (Complex.I + 1) + 1 ^ 2) : ℂ) ≠ 0 := by
    intro h0
    have hre := congrArg Complex.re h0
    simp [Complex.mul_re, Complex.add_re, Complex.add_im, Complex.neg_re,
      Complex.I_re, Complex.I_im] at hre
    norm_num at hre
  rw [div_eq_div_iff hden (by norm_num : (13 : ℂ) ≠ 0)]
  linear_combination (-4 : ℂ) * Complex.I_sq

theorem cTee_B : padB (tee_network cF cZ1 cZ2 cZ3 50) 0
    = ((-32/13 : ℝ) : ℂ) + ((-22/13 : ℝ) : ℂ) * Complex.I := by
  unfold padB
  rw [cTee_Z11, cTee_Z21, cTee_K]
  push_cast
  ring

theorem cTee_C : padC (tee_network cF cZ1 cZ2 cZ3 50) 0 = -1 + 2 * Complex.I := by
  unfold padC
  rw [cTee_Z11, cTee_Z21]
  linear_combination Complex.I_sq

theorem cTee_disc : padDisc (tee_network cF cZ1 cZ2 cZ3 50) 0
    = ((1216 : ℂ) + 56 * Complex.I) / 169 := by
  unfold padDisc
  rw [cTee_B, cTee_C]
  push_cast
  linear_combination ((484 : ℂ) / 169) * Complex.I_sq

/-- Counterexample for claim C1 as stated: for the concrete tee
`(Z1, Z2, Z3) = (i, 1, 0)` (with `Im Z1 = 1 ≥ 0`) at `z0 = 50`,
`extract_pad` on the impedance parameters of `tee_network` returns a first
component whose distance from the input `Z1 = i` exceeds the claimed
relative tolerance `1e-9` (indeed it exceeds `19/169 ≈ 0.11`). -/
theorem tee_roundtrip_counterexample :
    (1 / 1000000000 : ℝ) * Complex.abs Complex.I <
      Complex.abs ((extract_pad (tee_network cF cZ1 cZ2 cZ3 50)).2.1 0 - Complex.I) := by
  show (1 / 1000000000 : ℝ) * Complex.abs Complex.I <
      Complex.abs (padZ1 (tee_network cF cZ1 cZ2 cZ3 50) 0 - Complex.I)
  set s : ℂ := csqrt (((1216 : ℂ) + 56 * Complex.I) / 169) with hsdef
  have hs2 : s ^ 2 = ((1216 : ℂ) + 56 * Complex.I) / 169 := by
    rw [hsdef]
    exact csqrt_sq _
  have hs2' : (169 : ℂ) * s ^ 2 = 1216 + 56 * Complex.I := by
    rw [hs2]
    ring
  have hre0 : 0 ≤ s.re := by
    rw [hsdef]
    exact csqrt_re_nonneg _
  have hre_eq : s.re * s.re - s.im * s.im = 1216 / 169 := by
    have h := congrArg Complex.re hs2'
    simp [pow_two, Complex.mul_re, Complex.mul_im, Complex.add_re,
      Complex.I_re, Complex.I_im] at h
    ring_nf at h ⊢
    linarith
  have him_eq : s.re * s.im = 28 / 169 := by
    have h := congrArg Complex.im hs2'
    simp [pow_two, Complex.mul_re, Complex.mul_im, Complex.add_im,
      Complex.I_re, Complex.I_im] at h
    ring_nf at h ⊢
    linarith
  have hre_pos : 2 < s.re := by
    nlinarith [hre_eq, hre0, mul_self_nonneg s.im]
  have him_pos : 0 < s.im := by
    nlinarith [him_eq, hre_pos]
  have him_lt : s.im < 14 / 169 := by
    have haux : 0 < (s.re - 2) * s.im := mul_pos (by linarith) him_pos
    nlinarith [him_eq, haux]
  have hX1 : padX1 (tee_network cF cZ1 cZ2 cZ3 50) 0
      = (-1 * (((-32/13 : ℝ) : ℂ) + ((-22/13 : ℝ) : ℂ) * Complex.I) + s) / 2 := by
    unfold padX1
    rw [cTee_B, cTee_disc, ← hsdef]
  have him_x1 : (padX1 (tee_network cF cZ1 cZ2 cZ3 50) 0).im
      = (22 / 13 + s.im) / 2 := by
    rw [hX1]
    simp [Complex.add_im, Complex.mul_im, Complex.mul_re, Complex.ofReal_re,
      Complex.ofReal_im, Complex.I_re, Complex.I_im, Complex.neg_im,
      Complex.neg_re]
    ring
  have hx1pos : 0 ≤ (padX1 (tee_network cF cZ1 cZ2 cZ3 50) 0).im := by
    rw [him_x1]
    linarith
  have hZ1sel : padZ1 (tee_network cF cZ1 cZ2 cZ3 50) 0
      = padX1 (tee_network cF cZ1 cZ2 cZ3 50) 0 := by
    unfold padZ1
    rw [if_pos hx1pos]
  rw [hZ1sel, Complex.abs_I, mul_one]
  have him_diff : (padX1 (tee_network cF cZ1 cZ2 cZ3 50) 0 - Complex.I).im
      = (padX1 (tee_network cF cZ1 cZ2 cZ3 50) 0).im - 1 := by
    simp [Complex.sub_im, Complex.I_im]
  have habs : |(padX1 (tee_network cF cZ1 cZ2 cZ3 50) 0 - Complex.I).im|
      ≤ Complex.abs (padX1 (tee_network cF cZ1 cZ2 cZ3 50) 0 - Complex.I) :=
    Complex.abs_im_le_abs _
  have hlow : (19 : ℝ) / 169 < |(padX1 (tee_network cF cZ1 cZ2 cZ3 50) 0 - Complex.I).im| := by
    rw [him_diff, abs_of_neg (by rw [him_x1]; linarith)]
    rw [him_x1]
    linarith
  calc (1 / 1000000000 : ℝ) < 19 / 169 := by norm_num
    _ < |(padX1 (tee_network cF cZ1 cZ2 cZ3 50) 0 - Complex.I).im| := hlow
    _ ≤ Complex.abs (padX1 (tee_network cF cZ1 cZ2 cZ3 50) 0 - Complex.I) := habs

theorem t2s_inv_s2t (S : Matrix (Fin 2) (Fin 2) ℂ) (h01 : S 0 1 ≠ 0)
    (h10 : S 1 0 ≠ 0) (hdet : S.det ≠ 0) :
    t2s ((s2t S)⁻¹) = portSwap S⁻¹ := by
  have hdet' : S 0 0 * S 1 1 - S 0 1 * S 1 0 ≠ 0 := by
    rw [Matrix.det_fin_two] at hdet
    exact hdet
  have hne2 : S 0 1 * S 1 0 - S 0 0 * S 1 1 ≠ 0 := by
    intro hc
    exact hdet' (by linear_combination -hc)
  have hTinv : (s2t S)⁻¹
      = !![1 / S 0 1, -S 0 0 / S 0 1;
           S 1 1 / S 0 1, (S 0 1 * S 1 0 - S 0 0 * S 1 1) / S 0 1] := by
    apply Matrix.inv_eq_right_inv
    funext p q
    fin_cases p <;> fin_cases q <;>
      simp only [s2t, Matrix.mul_apply, Fin.sum_univ_two, Matrix.cons_val',
        Matrix.cons_val_zero, Matrix.cons_val_one, Matrix.head_cons,
        Matrix.head_fin_const, Matrix.empty_val', Matrix.cons_val_fin_one,
        Matrix.of_apply, Matrix.one_apply] <;>
      norm_num <;>
      field_simp <;>
      ring
  have hSinv : S⁻¹
      = !![S 1 1 / (S 0 0 * S 1 1 - S 0 1 * S 1 0),
           -S 0 1 / (S 0 0 * S 1 1 - S 0 1 * S 1 0);
           -S 1 0 / (S 0 0 * S 1 1 - S 0 1 * S 1 0),
           S 0 0 / (S 0 0 * S 1 1 - S 0 1 * S 1 0)] := by
    apply Matrix.inv_eq_right_inv
    funext p q
    fin_cases p <;> fin_cases q <;>
      simp only [Matrix.mul_apply, Fin.sum_univ_two, Matrix.cons_val',
        Matrix.cons_val_zero, Matrix.cons_val_one, Matrix.head_cons,
        Matrix.head_fin_const, Matrix.empty_val', Matrix.cons_val_fin_one,
        Matrix.of_apply, Matrix.one_apply] <;>
      norm_num <;>
      field_simp <;>
      ring
  rw [hTinv, hSinv]
  funext p q
  fin_cases p <;> fin_cases q <;>
    simp only [t2s, portSwap, Matrix.det_fin_two_of, Matrix.cons_val',
      Matrix.cons_val_zero, Matrix.cons_val_one, Matrix.head_cons,
      Matrix.head_fin_const, Matrix.empty_val', Matrix.cons_val_fin_one,
      Matrix.of_apply] <;>
    field_simp <;>
    ring

theorem cascadeS_thru_left (b : Matrix (Fin 2) (Fin 2) ℂ) :
    cascadeS !![0, 1; 1, 0] b = b := by
  funext p q
  fin_cases p <;> fin_cases q <;> simp [cascadeS]

theorem cascadeS_thru_right (a : Matrix (Fin 2) (Fin 2) ℂ) :
    cascadeS a !![0, 1; 1, 0] = a := by
  funext p q
  fin_cases p <;> fin_cases q <;> simp [cascadeS]

/-- Claim C6 (amended): the pipeline's de-embedding step computes
`composite = cascade(cascade(short, inv(long)), short)` where `inv` is
scikit-rf's wave-cascading (de-embedding) inverse.  Wherever that inverse
is defined, it equals the PORT-SWAPPED elementwise matrix inverse of the
long measurement's scattering matrix — not the plain elementwise matrix
inverse named by the spec. -/
theorem deembed_composite_formula {m : ℕ} (A B : Network 2 m)
    (h : ∀ i, B.s i 0 1 ≠ 0 ∧ B.s i 1 0 ≠ 0 ∧ (B.s i).det ≠ 0) :
    deembed_composite A B
      = cascade (cascade A (portSwapNet (invertMatrix B))) A := by
  unfold deembed_composite
  ext i : 2
  · rfl
  · show cascadeS (cascadeS (A.s i) (t2s ((s2t (B.s i))⁻¹))) (A.s i)
        = cascadeS (cascadeS (A.s i) (portSwap ((B.s i)⁻¹))) (A.s i)
    rw [t2s_inv_s2t (B.s i) (h i).1 (h i).2.1 (h i).2.2]
  · rfl

/-- Witness for claim C6's amended statement: at the concrete short
measurement `thruNet` and long measurement `asymNet` the side conditions
hold and the composite equals the cascade with the port-swapped matrix
inverse. -/
theorem deembed_composite_formula_witness :
    (∀ i : Fin 1, asymNet.s i 0 1 ≠ 0 ∧ asymNet.s i 1 0 ≠ 0 ∧
        (asymNet.s i).det ≠ 0) ∧
    deembed_composite thruNet asymNet
      = cascade (cascade thruNet (portSwapNet (invertMatrix asymNet))) thruNet := by
  have h : ∀ i : Fin 1, asymNet.s i 0 1 ≠ 0 ∧ asymNet.s i 1 0 ≠ 0 ∧
      (asymNet.s i).det ≠ 0 := by
    intro i
    refine ⟨by simp [asymNet], by simp [asymNet], ?_⟩
    show (!![(1:ℂ)/2, 1; 1, 1/3]).det ≠ 0
    rw [Matrix.det_fin_two_of]
    norm_num
  exact ⟨h, deembed_composite_formula thruNet asymNet h⟩

theorem asymNet_inv : (!![(1:ℂ)/2, 1; 1, 1/3])⁻¹ = !![-2/5, 6/5; 6/5, -3/5] := by
  have hdetA : (!![(1:ℂ)/2, 1; 1, 1/3]).det = -5/6 := by
    rw [Matrix.det_fin_two_of]
    norm_num
  rw [Matrix.inv_def, hdetA, Matrix.adjugate_fin_two]
  funext p q
  fin_cases p <;> fin_cases q <;>
    simp [Ring.inverse_eq_inv, Matrix.smul_apply] <;> norm_num

/-- Counterexample for claim C6 as stated: with the through standard as
the short measurement and the asymmetric `asymNet` as the long
measurement, the composite the code computes differs from
`cascade(cascade(short, invertMatrix(long)), short)` built with the plain
elementwise matrix inverse the spec describes. -/
theorem deembed_composite_counterexample :
    deembed_composite thruNet asymNet
      ≠ cascade (cascade thruNet (invertMatrix asymNet)) thruNet := by
  intro hEq
  have h00 : Network.s (deembed_composite thruNet asymNet) 0 0 0
      = Network.s (cascade (cascade thruNet (invertMatrix asymNet)) thruNet) 0 0 0 :=
    congrFun (congrFun (congrArg (fun N => Network.s N 0) hEq) 0) 0
  have hL : Network.s (deembed_composite thruNet asymNet) 0 0 0
      = ((!![(1:ℂ)/2, 1; 1, 1/3])⁻¹) 1 1 := by
    show cascadeS (cascadeS !![0, 1; 1, 0] (t2s ((s2t (asymNet.s 0))⁻¹))) !![0, 1; 1, 0] 0 0
        = ((!![(1:ℂ)/2, 1; 1, 1/3])⁻¹) 1 1
    rw [cascadeS_thru_left, cascadeS_thru_right]
    have hinv : t2s ((s2t (asymNet.s 0))⁻¹) = portSwap ((asymNet.s 0)⁻¹) := by
      apply t2s_inv_s2t
      · simp [asymNet]
      · simp [asymNet]
      · show (!![(1:ℂ)/2, 1; 1, 1/3]).det ≠ 0
        rw [Matrix.det_fin_two_of]
        norm_num
    rw [hinv]
    rfl
  have hR : Network.s (cascade (cascade thruNet (invertMatrix asymNet)) thruNet) 0 0 0
      = ((!![(1:ℂ)/2, 1; 1, 1/3])⁻¹) 0 0 := by
    show cascadeS (cascadeS !![0, 1; 1, 0] ((asymNet.s 0)⁻¹)) !![0, 1; 1, 0] 0 0
        = ((!![(1:ℂ)/2, 1; 1, 1/3])⁻¹) 0 0
    rw [cascadeS_thru_left, cascadeS_thru_right]
    rfl
  rw [hL, hR, asymNet_inv] at h00
  have e11 : (!![(-2 : ℂ)/5, 6/5; 6/5, -3/5]) 1 1 = -3/5 := rfl
  have e00 : (!![(-2 : ℂ)/5, 6/5; 6/5, -3/5]) 0 0 = -2/5 := rfl
  rw [e11, e00] at h00
  norm_num at h00

/-- Claim C8 (the code bug): every call of `run_pad_extraction` passes
four arguments to the two-parameter `get_pads`, so the call raises
`TypeError` before anything is computed, returned, named, or printed —
the pipeline entry point can never return the pair the spec describes. -/
theorem run_pad_extraction_type_error {m : ℕ} (netShort netLong : Network 2 m)
    (year length : ℤ) :
    run_pad_extraction netShort netLong year length
      = Except.error ("TypeError") := rfl

/-- Claim C9 (amended): `get_pads` itself performs the serialization — it
writes the two touchstone artifacts, left (`left_pad_<year>_<length>`)
then right (`right_pad_<year>_<length>`), before returning the pair; the
write list is never empty. -/
theorem get_pads_writes {m : ℕ} (netShort netLong : Network 2 m)
    (year length : ℤ) :
    (get_pads netShort netLong year length).2
      = [FileWrite.touchstone (leftPadName year length),
         FileWrite.touchstone (rightPadName year length)] := rfl

/-- Counterexample for claim C9 as stated: at concrete inputs the
pipeline's `get_pads` writes the two files `left_pad_2015_600` and
`right_pad_2015_600` itself — its write list is not empty. -/
theorem get_pads_writes_counterexample :
    (get_pads matchedNet matchedNet 2015 600).2
        = [FileWrite.touchstone ("left_pad_2015_600"),
           FileWrite.touchstone ("right_pad_2015_600")] ∧
    (get_pads matchedNet matchedNet 2015 600).2 ≠ ([] : List FileWrite) := by
  have h1 : (get_pads matchedNet matchedNet 2015 600).2
      = [FileWrite.touchstone ("left_pad_2015_600"),
         FileWrite.touchstone ("right_pad_2015_600")] := by
    show [FileWrite.touchstone (leftPadName 2015 600),
          FileWrite.touchstone (rightPadName 2015 600)]
        = [FileWrite.touchstone ("left_pad_2015_600"),
           FileWrite.touchstone ("right_pad_2015_600")]
    rfl
  refine ⟨h1, ?_⟩
  rw [h1]
  simp

end

end Pads
